import Mathlib

/-!
# Verification of the `rust-diceroller` command-line utility

A shallow embedding of the program's two source files (`src/main.rs`,
`src/rcmd.rs`) into Lean 4, together with theorems settling the spec's
claims about the parser, the simulator, the formatter and the `main`
pipeline.

Machine integers (`u32`) are modelled as `Nat` with an explicit
`% 2 ^ 32` wherever the Rust code can overflow (release-mode wrapping
semantics), and fallible operations return `Option` / `Except`.
Strings are Lean `String`s; `str::split('d')` is modelled on the
underlying character list.
-/

/-- The wrapping `u32` addition used by `RollResult::total`'s fold
(`|a, b| a + b` on `u32`, release-mode semantics: modulo `2 ^ 32`). -/
def u32add (a b : Nat) : Nat := (a + b) % 4294967296

/-- Embeds `struct RollCommand { count: u32, range: u32 }` from
`src/rcmd.rs`. The `u32` fields are `Nat`s; every value the program
actually constructs is `< 2 ^ 32`. Equality is structural, as derived
by `#[derive(Eq, PartialEq)]`. -/
structure RollCommand where
  count : Nat
  range : Nat
deriving DecidableEq

/-- Embeds `RollCommand::new(c, r)`. -/
def RollCommand.new (c r : Nat) : RollCommand := ⟨c, r⟩

/-- Embeds `struct RollResult(Vec<u32>)`: the wrapped vector of rolled
values, exposed by `RollResult::values()`. -/
structure RollResult where
  values : List Nat
deriving DecidableEq

/-- Embeds `RollResult::total`:
`self.0.iter().fold(0, |a, b| a + b)` in `u32` arithmetic. -/
def RollResult.total (r : RollResult) : Nat :=
  r.values.foldl u32add 0

/-- Embeds the `Display` implementation for `RollResult`
(`write!(f, "{} ({_})", as_strings.connect(", "), self.total())`):
the decimal representations of the values joined by `", "`, a space,
then the total in parentheses. -/
def RollResult.fmt (r : RollResult) : String :=
  String.intercalate ", " (r.values.map (fun n => Nat.repr n))
    ++ " (" ++ Nat.repr r.total ++ ")"

/-- Helper for `parseU32`: Rust's integer `from_str` strips one leading
`'+'` sign before reading digits. -/
def stripPlus (cs : List Char) : List Char :=
  match cs with
  | [] => []
  | c :: rest => if c = '+' then rest else c :: rest

/-- Accumulates the numeric value of a decimal digit string, exactly as
Rust's `from_str` does digit by digit (`'0'.toNat = 48`). -/
def digitsVal (cs : List Char) : Nat :=
  cs.foldl (fun a c => a * 10 + (c.toNat - 48)) 0

/-- Embeds `str::parse::<u32>()` (Rust's `u32: FromStr`): an optional
leading `'+'`, then a non-empty run of decimal digits whose value fits
in `u32`; anything else is an error. Rust detects overflow with checked
arithmetic at each step, which for an all-digit string is equivalent to
the final mathematical value reaching `2 ^ 32`. -/
def parseU32 (cs : List Char) : Option Nat :=
  let ds := stripPlus cs
  if ds = [] then none
  else if ds.all Char.isDigit then
    if digitsVal ds < 4294967296 then some (digitsVal ds) else none
  else none

/-- Embeds Rust's `str::split('d')` on the character list: the (possibly
empty) fragments between occurrences of `'d'`. `"".split('d')` yields
one empty fragment, as in Rust. -/
def splitD : List Char → List (List Char)
  | [] => [[]]
  | c :: cs =>
    if c = 'd' then [] :: splitD cs
    else
      match splitD cs with
      | [] => [[c]]
      | p :: ps => (c :: p) :: ps

/-- Embeds `<RollCommand as FromStr>::from_str` from `src/rcmd.rs`:
split on `'d'`, `filter_map` the fragments through the `u32` parser
(silently discarding fragments that fail), then match the surviving
integers — two give `RollCommand{count, range}`, one gives
`RollCommand{1, range}`, anything else is a descriptive error naming
the token. -/
def RollCommand.fromStr (s : String) : Except String RollCommand :=
  match (splitD s.data).filterMap parseU32 with
  | [count, range] => Except.ok (RollCommand.new count range)
  | [range] => Except.ok (RollCommand.new 1 range)
  | _ => Except.error ("Invalid command: " ++ s ++ ".")

/-- State-passing runner behind `RollCommand::result`: the Rust closure
is an `FnMut`, so the generation function is modelled as
`f : σ → Nat → Nat × σ` (mutable captured state `σ`, argument the range,
result the produced value plus updated state). `runRolls f range n s`
performs the `n` calls `f(range)` of `(0..n).map(|_| f(range))`
left to right, returning the produced values in call order and the
final state. -/
def runRolls (f : σ → Nat → Nat × σ) (range : Nat) : Nat → σ → List Nat × σ
  | 0, s => ([], s)
  | n + 1, s =>
    let (v, s') := f s range
    let (vs, s'') := runRolls f range n s'
    (v :: vs, s'')

/-- Embeds `RollCommand::result`:
`RollResult((0..self.count).map(|_| f(self.range)).collect())`,
with the `FnMut` state threaded explicitly. -/
def RollCommand.result (cmd : RollCommand) (f : σ → Nat → Nat × σ) (s : σ) :
    RollResult × σ :=
  let (vs, s') := runRolls f cmd.range cmd.count s
  (⟨vs⟩, s')

/-- The `FnMut` state just before the `i`-th (0-based) invocation of the
generation function, when it is called repeatedly on `range` starting
from state `s`. -/
def callState (f : σ → Nat → Nat × σ) (range : Nat) (s : σ) : Nat → σ
  | 0 => s
  | i + 1 => (f (callState f range s i) range).2

/-- State-passing runner for a generation function that can panic
(`none`), as the real closure `|max| rng.gen_range(0, max) + 1` of
`src/main.rs` does on `max = 0`: performs the `n` calls of
`(0..n).map(|_| f(range))` left to right; a panic in any call aborts
the whole evaluation. -/
def runRollsP (f : σ → Nat → Option (Nat × σ)) (range : Nat) :
    Nat → σ → Option (List Nat × σ)
  | 0, s => some ([], s)
  | n + 1, s =>
    match f s range with
    | none => none
    | some (v, s') =>
      match runRollsP f range n s' with
      | none => none
      | some (vs, s'') => some (v :: vs, s'')

/-- `RollCommand::result` evaluated with a generation function that can
panic: `none` when any of the `count` calls panics. -/
def RollCommand.resultP (cmd : RollCommand) (f : σ → Nat → Option (Nat × σ))
    (s : σ) : Option (RollResult × σ) :=
  match runRollsP f cmd.range cmd.count s with
  | none => none
  | some (vs, s') => some (⟨vs⟩, s')

/-- The `main` pipeline of `src/main.rs`, steps 2–4: iterate over the
argument strings in order; `filter_map` each through the `RollCommand`
parser, discarding failures; map each parsed command to a `RollResult`
via `cmd.result(...)` with the shared mutable RNG threaded through; and
collect the results. The lazy `filter_map`/`map`/`collect` chain
evaluates exactly in this interleaved per-argument order; a panic while
evaluating any parsed command (`none`) aborts the whole `collect`. -/
def mainRollsP (f : σ → Nat → Option (Nat × σ)) :
    List String → σ → Option (List RollResult × σ)
  | [], s => some ([], s)
  | a :: rest, s =>
    match (RollCommand.fromStr a).toOption with
    | none => mainRollsP f rest s
    | some cmd =>
      match cmd.resultP f s with
      | none => none
      | some (res, s') =>
        match mainRollsP f rest s' with
        | none => none
        | some (results, s'') => some (res :: results, s'')

/-- Observable behaviour of one run of the process: the lines written to
standard output, in order, and the process exit status. -/
structure ProcResult where
  out : List String
  exitCode : Nat
deriving DecidableEq

/-- Embeds `fn main()` from `src/main.rs`. The RNG acquisition
`OsRng::new()` is a parameter: either a failure description or an
initial generator state together with the generation function
`|max| rng.gen_range(0, max) + 1`, which can panic (`none`). On
acquisition failure, main prints the error description with `println!`
(standard output) and executes `return`; a Rust `main` that returns
`()` normally exits the process with status `0`. If evaluating a
parsed command panics, the `collect` aborts before the print loop
runs: nothing is written to standard output (the panic message goes to
standard error, which is not modelled) and the Rust panic runtime
terminates the process with its default abnormal status `101`. -/
def mainRun (rng : Except String σ) (f : σ → Nat → Option (Nat × σ))
    (args : List String) : ProcResult :=
  match rng with
  | Except.error e => { out := [e], exitCode := 0 }
  | Except.ok s =>
    match mainRollsP f args s with
    | some (rolls, _) => { out := rolls.map RollResult.fmt, exitCode := 0 }
    | none => { out := [], exitCode := 101 }

/-- Modelled from the spec: the real randomness mapping of §4.4 and the
`rand` crate's `Rng::gen_range(low, high)` used in `src/main.rs`, which
is not part of this repository's sources. It draws a uniform integer in
`[low, high)` — here from the entropy value supplied for the call — and
panics when the range is empty (`low >= high`), modelled as `none`. -/
def genRange (low high entropy : Nat) : Option Nat :=
  if low < high then some (low + entropy % (high - low)) else none

/-- The rolls of one command through the real randomness mapping
`|max| rng.gen_range(0, max) + 1`, drawing the `i`-th call's entropy
from the stream `entropy`. A panic in any call (`none`) aborts the
whole evaluation. -/
def runRollsReal (entropy : Nat → Nat) (range : Nat) :
    Nat → Nat → Option (List Nat)
  | 0, _ => some []
  | n + 1, i =>
    match genRange 0 range (entropy i) with
    | none => none
    | some v => (runRollsReal entropy range n (i + 1)).map (fun vs => (v + 1) :: vs)

/-- `RollCommand::result` evaluated with the real randomness mapping of
`src/main.rs` (`|max| rng.gen_range(0, max) + 1`): `none` models a
panic of `gen_range` on an empty range. -/
def RollCommand.resultReal (cmd : RollCommand) (entropy : Nat → Nat) :
    Option RollResult :=
  (runRollsReal entropy cmd.range cmd.count 0).map RollResult.mk

/-- Modelled from the spec: the real generation closure of
`src/main.rs`, `|max| rng.gen_range(0, max) + 1`, as a panic-capable
generation function for the `main` pipeline. The OS generator state is
an index into a stream of entropy values, one consumed per call;
`none` models the `gen_range` panic on the empty range `[0, max)` when
`max = 0`. -/
def realGen (entropy : Nat → Nat) (i : Nat) (max : Nat) : Option (Nat × Nat) :=
  (genRange 0 max (entropy i)).map (fun v => (v + 1, i + 1))

/-- The decimal digit characters of `n`, most significant first: the
character list underlying `Nat.repr n` (shown by `Nat.repr_data`). -/
def decDigits (n : Nat) : List Char :=
  if _h : n < 10 then [Nat.digitChar n]
  else decDigits (n / 10) ++ [Nat.digitChar (n % 10)]
decreasing_by exact Nat.div_lt_self (by omega) (by omega)

theorem decDigits_toDigitsCore :
    ∀ (n fuel : Nat), n < fuel → ∀ ds : List Char,
      Nat.toDigitsCore 10 fuel n ds = decDigits n ++ ds := by
  intro n
  induction n using Nat.strong_induction_on with
  | _ n ih =>
    intro fuel hfuel ds
    match fuel with
    | f + 1 =>
      rw [decDigits]
      simp only [Nat.toDigitsCore]
      by_cases h10 : n < 10
      · have : n / 10 = 0 := Nat.div_eq_of_lt h10
        simp [this, Nat.mod_eq_of_lt h10, h10]
      · have hne : ¬ n / 10 = 0 := by
          intro h0
          exact h10 (by omega)
        have hlt : n / 10 < n := Nat.div_lt_self (by omega) (by omega)
        simp only [hne, if_neg, h10, dif_neg, not_false_iff]
        rw [ih (n / 10) hlt f (by omega)]
        simp

/-- `Nat.repr` (Rust's `u32: Display`, decimal) produces exactly the
characters `decDigits`. -/
theorem Nat.repr_data (n : Nat) : (Nat.repr n).data = decDigits n := by
  show (List.asString (Nat.toDigitsCore 10 (n + 1) n [])).data = decDigits n
  rw [decDigits_toDigitsCore n (n + 1) (Nat.lt_succ_self n) []]
  simp [List.asString]

theorem digitChar_isDigit {d : Nat} (h : d < 10) :
    (Nat.digitChar d).isDigit = true := by
  interval_cases d <;> decide

theorem digitChar_toNat {d : Nat} (h : d < 10) :
    (Nat.digitChar d).toNat - 48 = d := by
  interval_cases d <;> decide

theorem decDigits_ne_nil (n : Nat) : decDigits n ≠ [] := by
  rw [decDigits]
  split <;> simp

theorem decDigits_all_isDigit (n : Nat) :
    ∀ c ∈ decDigits n, c.isDigit = true := by
  induction n using Nat.strong_induction_on with
  | _ n ih =>
    rw [decDigits]
    split
    · intro c hc
      rw [List.mem_singleton] at hc
      subst hc
      exact digitChar_isDigit (by omega)
    · intro c hc
      rw [List.mem_append, List.mem_singleton] at hc
      rcases hc with hc | hc
      · exact ih (n / 10) (Nat.div_lt_self (by omega) (by omega)) c hc
      · subst hc
        exact digitChar_isDigit (Nat.mod_lt n (by omega))

theorem foldl_decDigits (n : Nat) :
    ∀ a : Nat,
      (decDigits n).foldl (fun a c => a * 10 + (c.toNat - 48)) a
        = a * 10 ^ (decDigits n).length + n := by
  induction n using Nat.strong_induction_on with
  | _ n ih =>
    intro a
    rw [decDigits]
    split
    · next h =>
      simp only [List.foldl, List.length_singleton, pow_one]
      rw [digitChar_toNat (by omega)]
    · next h =>
      rw [List.foldl_append, ih (n / 10) (Nat.div_lt_self (by omega) (by omega)) a]
      simp only [List.foldl, List.length_append, List.length_singleton]
      rw [digitChar_toNat (Nat.mod_lt n (by omega))]
      rw [pow_succ]
      have := Nat.div_add_mod n 10
      ring_nf
      omega

theorem digitsVal_decDigits (n : Nat) : digitsVal (decDigits n) = n := by
  unfold digitsVal
  rw [foldl_decDigits n 0]
  simp

theorem stripPlus_of_digits {cs : List Char} (hne : cs ≠ [])
    (hd : ∀ c ∈ cs, c.isDigit = true) : stripPlus cs = cs := by
  match cs with
  | [] => exact absurd rfl hne
  | c :: rest =>
    have hc : c.isDigit = true := hd c (List.mem_cons_self c rest)
    have : c ≠ '+' := by
      intro h
      subst h
      exact absurd hc (by decide)
    simp [stripPlus, this]

/-- Round-trip: the `u32` parser recovers `n` from its decimal digits,
for every `n` in `u32` range. -/
theorem parseU32_decDigits {n : Nat} (h : n < 4294967296) :
    parseU32 (decDigits n) = some n := by
  unfold parseU32
  rw [stripPlus_of_digits (decDigits_ne_nil n) (decDigits_all_isDigit n)]
  rw [if_neg (decDigits_ne_nil n)]
  rw [if_pos (by rw [List.all_eq_true]; exact decDigits_all_isDigit n)]
  rw [digitsVal_decDigits]
  rw [if_pos h]

theorem decDigits_ne_d (n : Nat) : ∀ c ∈ decDigits n, c ≠ 'd' := by
  intro c hc he
  have := decDigits_all_isDigit n c hc
  subst he
  exact absurd this (by decide)

theorem splitD_of_noD {a : List Char} (h : ∀ c ∈ a, c ≠ 'd') :
    splitD a = [a] := by
  induction a with
  | nil => rfl
  | cons c cs ih =>
    have hc : c ≠ 'd' := h c (List.mem_cons_self c cs)
    have hrest : splitD cs = [cs] := ih (fun x hx => h x (List.mem_cons_of_mem c hx))
    simp [splitD, hc, hrest]

theorem splitD_append_d {a : List Char} (b : List Char)
    (h : ∀ c ∈ a, c ≠ 'd') :
    splitD (a ++ 'd' :: b) = a :: splitD b := by
  induction a with
  | nil => simp [splitD]
  | cons c cs ih =>
    have hc : c ≠ 'd' := h c (List.mem_cons_self c cs)
    have hrest := ih (fun x hx => h x (List.mem_cons_of_mem c hx))
    simp [splitD, hc, hrest]

theorem callState_shift (f : σ → Nat → Nat × σ) (range : Nat) (s : σ) :
    ∀ i : Nat, callState f range ((f s range).2) i = callState f range s (i + 1) := by
  intro i
  induction i with
  | zero => rfl
  | succ i ih => simp [callState, ih]

/-- Full characterization of the state-passing roll runner: the values
are the first components of the successive invocations, in call order,
and the final state is the state after `n` invocations. -/
theorem runRolls_spec (f : σ → Nat → Nat × σ) (range : Nat) :
    ∀ (n : Nat) (s : σ),
      runRolls f range n s
        = ((List.range n).map (fun i => (f (callState f range s i) range).1),
           callState f range s n) := by
  intro n
  induction n with
  | zero => intro s; rfl
  | succ n ih =>
    intro s
    show (_, _) = _
    rw [ih ((f s range).2)]
    rw [List.range_succ_eq_map]
    simp only [List.map_cons, List.map_map, Prod.mk.injEq, List.cons.injEq]
    refine ⟨⟨rfl, ?_⟩, ?_⟩
    · apply List.map_congr_left
      intro i _
      show (f (callState f range ((f s range).2) i) range).1 = _
      rw [callState_shift]
      rfl
    · rw [callState_shift]

theorem foldl_u32add (l : List Nat) :
    ∀ a : Nat, l.foldl u32add (a % 4294967296) = (a + l.sum) % 4294967296 := by
  induction l with
  | nil => intro a; simp
  | cons c cs ih =>
    intro a
    show cs.foldl u32add ((a % 4294967296 + c) % 4294967296) = _
    rw [Nat.mod_add_mod, ih (a + c)]
    simp [List.sum_cons]
    ring_nf

/-- The display format written exactly as §4.3 of the spec words it:
the decimal values joined by the separator `", "`, then a space, then
the total in parentheses. The join is spelled out recursively, to be
compared with the `connect`/`intercalate`-based source formatter. -/
def joinSep : List String → String
  | [] => ""
  | [x] => x
  | x :: y :: t => x ++ ", " ++ joinSep (y :: t)

/-- Modelled from the spec (§4.3 contract, for refinement against the
source formatter `RollResult.fmt`): `"v1, v2, ..., vn (total)"`. -/
def specFormat (r : RollResult) : String :=
  joinSep (r.values.map Nat.repr) ++ " (" ++ Nat.repr r.total ++ ")"

/-- The tail of a `", "`-separated join: every element preceded by the
separator. -/
def sepPrefixed : List String → String
  | [] => ""
  | y :: ys => ", " ++ y ++ sepPrefixed ys

theorem intercalate_go_eq :
    ∀ (l : List String) (acc : String),
      String.intercalate.go acc ", " l = acc ++ sepPrefixed l := by
  intro l
  induction l with
  | nil => intro acc; simp [String.intercalate.go, sepPrefixed]
  | cons y ys ih =>
    intro acc
    show String.intercalate.go (acc ++ ", " ++ y) ", " ys = _
    rw [ih]
    simp [sepPrefixed, String.append_assoc]

theorem joinSep_eq_sepPrefixed :
    ∀ (x : String) (xs : List String),
      joinSep (x :: xs) = x ++ sepPrefixed xs := by
  intro x xs
  induction xs generalizing x with
  | nil => simp [joinSep, sepPrefixed]
  | cons y t ih =>
    show x ++ ", " ++ joinSep (y :: t) = _
    rw [ih y]
    simp [sepPrefixed, String.append_assoc]

theorem intercalate_eq_joinSep (l : List String) :
    String.intercalate ", " l = joinSep l := by
  match l with
  | [] => rfl
  | x :: xs =>
    show String.intercalate.go x ", " xs = _
    rw [intercalate_go_eq, joinSep_eq_sepPrefixed]

/-- One `RollResult` per command, in command order, with the generator
state threaded left to right and a panic in any evaluation aborting the
whole run: the shape §6 of the spec prescribes for the program's
output, to be compared with the `main` pipeline over exactly the
successfully parsed tokens. -/
def runSpecsP (f : σ → Nat → Option (Nat × σ)) :
    List RollCommand → σ → Option (List RollResult × σ)
  | [], s => some ([], s)
  | c :: cs, s =>
    match c.resultP f s with
    | none => none
    | some (res, s') =>
      match runSpecsP f cs s' with
      | none => none
      | some (results, s'') => some (res :: results, s'')

theorem runSpecsP_length (f : σ → Nat → Option (Nat × σ)) :
    ∀ (cs : List RollCommand) (s : σ) (results : List RollResult) (s' : σ),
      runSpecsP f cs s = some (results, s') → results.length = cs.length := by
  intro cs
  induction cs with
  | nil =>
    intro s results s' h
    cases h
    rfl
  | cons c rest ih =>
    intro s results s' h
    unfold runSpecsP at h
    split at h
    · exact absurd h (by simp)
    · split at h
      · exact absurd h (by simp)
      · rename_i hrun
        cases h
        simp only [List.length_cons]
        exact congrArg (fun n => n + 1) (ih _ _ _ hrun)

theorem mainRollsP_eq_runSpecsP (f : σ → Nat → Option (Nat × σ)) :
    ∀ (args : List String) (s : σ),
      mainRollsP f args s
        = runSpecsP f (args.filterMap (fun a => (RollCommand.fromStr a).toOption)) s := by
  intro args
  induction args with
  | nil => intro s; rfl
  | cons a rest ih =>
    intro s
    match h : (RollCommand.fromStr a).toOption with
    | none =>
      simp only [mainRollsP, h, List.filterMap_cons]
      exact ih s
    | some cmd =>
      simp only [mainRollsP, h, List.filterMap_cons, runSpecsP]
      match hres : cmd.resultP f s with
      | none => rfl
      | some (res, s') =>
        dsimp only
        rw [ih s']

/-- Claim C1, counterexample: the claim quantifies over all non-negative
integers, but the fields are `u32`. At `c = 2 ^ 32`, `s = 6` the token
`"4294967296d6"` parses — the overflowing count fragment is silently
discarded — to `RollSpec{1, 6}`, not `RollSpec{4294967296, 6}`. -/
theorem claim1_counterexample :
    RollCommand.fromStr "4294967296d6" = Except.ok (RollCommand.new 1 6) ∧
    RollCommand.new 1 6 ≠ RollCommand.new 4294967296 6 :=
  ⟨rfl, by decide⟩

/-- Claim C1 (amended): for all non-negative integers `c`, `s` in `u32`
range (`< 2 ^ 32`), parsing the token `"{c}d{s}"` yields
`RollSpec{count = c, sides = s}` and parsing the token `"{s}"` yields
`RollSpec{count = 1, sides = s}`, the numerals written in decimal
(`Nat.repr`). -/
theorem claim1_parse_roundtrip_u32 (c s : Nat)
    (hc : c < 4294967296) (hs : s < 4294967296) :
    RollCommand.fromStr (Nat.repr c ++ "d" ++ Nat.repr s)
      = Except.ok (RollCommand.new c s) ∧
    RollCommand.fromStr (Nat.repr s) = Except.ok (RollCommand.new 1 s) := by
  have hdata : (Nat.repr c ++ "d" ++ Nat.repr s).data
      = decDigits c ++ 'd' :: decDigits s := by
    simp [Nat.repr_data, List.append_assoc]
  constructor
  · unfold RollCommand.fromStr
    rw [hdata, splitD_append_d (decDigits s) (decDigits_ne_d c),
        splitD_of_noD (decDigits_ne_d s)]
    simp [List.filterMap_cons, parseU32_decDigits hc, parseU32_decDigits hs]
  · unfold RollCommand.fromStr
    rw [Nat.repr_data, splitD_of_noD (decDigits_ne_d s)]
    simp [List.filterMap_cons, parseU32_decDigits hs]

/-- Witness for C1 at `c = 2`, `s = 6`. -/
theorem claim1_parse_roundtrip_u32_witness :
    2 < 4294967296 ∧ 6 < 4294967296 ∧
    (RollCommand.fromStr (Nat.repr 2 ++ "d" ++ Nat.repr 6)
        = Except.ok (RollCommand.new 2 6) ∧
     RollCommand.fromStr (Nat.repr 6) = Except.ok (RollCommand.new 1 6)) :=
  ⟨by decide, by decide, claim1_parse_roundtrip_u32 2 6 (by decide) (by decide)⟩

/-- Claim C2: simulating `RollSpec{count = c, sides = s}` with any
generation function `f` — modelled with its `FnMut` state threaded
explicitly — yields exactly `c` elements; element `i` is the verbatim
first component of the `i`-th invocation of `f` on `s`, the invocations
made once per die in order left to right (the final state is the state
after exactly `c` calls); no validation or clamping is applied. -/
theorem claim2_simulator_outcome (cmd : RollCommand)
    (f : σ → Nat → Nat × σ) (s : σ) :
    (cmd.result f s).1.values.length = cmd.count ∧
    (cmd.result f s).1.values
      = (List.range cmd.count).map
          (fun i => (f (callState f cmd.range s i) cmd.range).1) ∧
    (cmd.result f s).2 = callState f cmd.range s cmd.count := by
  have h := runRolls_spec f cmd.range cmd.count s
  refine ⟨?_, ?_, ?_⟩
  · show (runRolls f cmd.range cmd.count s).1.length = _
    rw [h]
    simp
  · show (runRolls f cmd.range cmd.count s).1 = _
    rw [h]
  · show (runRolls f cmd.range cmd.count s).2 = _
    rw [h]

/-- Claim C3, counterexample: when randomness acquisition fails, `main`
prints the failure description and executes a bare `return`; a Rust
`main` returning `()` exits the process with status `0` — a success
status, not the failure status the claim asserts. -/
theorem claim3_counterexample :
    mainRun (Except.error "entropy unavailable" : Except String Unit)
        (fun s _ => some (1, s)) ["2d6"]
      = { out := ["entropy unavailable"], exitCode := 0 } :=
  rfl

/-- Claim C3 (amended): if the OS randomness source cannot be acquired
at startup, the program prints the failure description to standard
output, produces no roll output, and terminates normally with exit
status `0` (success), for every generation function and argument
list. -/
theorem claim3_rng_failure_behavior {σ : Type} (e : String)
    (f : σ → Nat → Option (Nat × σ)) (args : List String) :
    mainRun (Except.error e) f args = { out := [e], exitCode := 0 } :=
  rfl

/-- Claim C4: the formatter renders a `RollOutcome` as
`"v1, v2, ..., vn (total)"` — decimal values in roll order joined by
`", "`, a space, and the total in parentheses (`specFormat`, spelled
from the spec's words); `[]` gives `" (0)"`, `[6, 6]` gives
`"6, 6 (12)"` and `[1, 2, 3]` gives `"1, 2, 3 (6)"`. -/
theorem claim4_formatter_shape :
    (∀ r : RollResult, r.fmt = specFormat r) ∧
    RollResult.fmt ⟨[]⟩ = " (0)" ∧
    RollResult.fmt ⟨[6, 6]⟩ = "6, 6 (12)" ∧
    RollResult.fmt ⟨[1, 2, 3]⟩ = "1, 2, 3 (6)" := by
  refine ⟨?_, rfl, rfl, rfl⟩
  intro r
  unfold RollResult.fmt specFormat
  rw [intercalate_eq_joinSep]

/-- Claim C5: a token whose split-on-`'d'` fragments, after discarding
fragments that fail the `u32` parse, leave a number of integers other
than one or two, fails with the descriptive error naming the token; in
particular `"2d6d1"` (three integers) and `"abc"` (zero integers)
fail. -/
theorem claim5_arity_error :
    (∀ s : String,
        ((splitD s.data).filterMap parseU32).length ≠ 1 →
        ((splitD s.data).filterMap parseU32).length ≠ 2 →
        RollCommand.fromStr s
          = Except.error ("Invalid command: " ++ s ++ ".")) ∧
    RollCommand.fromStr "2d6d1" = Except.error "Invalid command: 2d6d1." ∧
    RollCommand.fromStr "abc" = Except.error "Invalid command: abc." := by
  refine ⟨?_, rfl, rfl⟩
  intro s h1 h2
  unfold RollCommand.fromStr
  generalize hsplit : (splitD s.data).filterMap parseU32 = l at h1 h2 ⊢
  match l, h1, h2 with
  | [], _, _ => rfl
  | [a], h1, _ => exact absurd rfl h1
  | [a, b], _, h2 => exact absurd rfl h2
  | a :: b :: c :: t, _, _ => rfl

/-- Witness for C5 at the token `"2d0d0"` (three integer fragments). -/
theorem claim5_arity_error_witness :
    ((splitD "2d0d0".data).filterMap parseU32).length ≠ 1 ∧
    ((splitD "2d0d0".data).filterMap parseU32).length ≠ 2 ∧
    RollCommand.fromStr "2d0d0" = Except.error "Invalid command: 2d0d0." :=
  ⟨by decide, by decide, claim5_arity_error.1 "2d0d0" (by decide) (by decide)⟩

/-- Claim C6: the token `"d6"` parses to `RollSpec{1, 6}`: the split
yields the empty fragment and `"6"`, the empty fragment fails the
integer parse and is silently discarded, and the single surviving
integer becomes the sides with count defaulting to `1`. -/
theorem claim6_d6_parses :
    splitD "d6".data = [[], ['6']] ∧
    parseU32 [] = none ∧
    (splitD "d6".data).filterMap parseU32 = [6] ∧
    RollCommand.fromStr "d6" = Except.ok (RollCommand.new 1 6) :=
  ⟨rfl, rfl, rfl, rfl⟩

/-- Claim C7, counterexample: the claim fails on the argument list
`["2d0"]`. The token parses successfully to `RollSpec{2, 0}` — one
successfully parsed token — but evaluating it through the real
generation closure panics in `gen_range(0, 0)` before the print loop
runs, so the program writes zero lines (not one) and terminates
abnormally with the Rust panic status `101`. -/
theorem claim7_counterexample :
    RollCommand.fromStr "2d0" = Except.ok (RollCommand.new 2 0) ∧
    (["2d0"].filterMap (fun a => (RollCommand.fromStr a).toOption)).length = 1 ∧
    mainRun (Except.ok 0) (realGen (fun _ => 0)) ["2d0"]
      = { out := [], exitCode := 101 } ∧
    (mainRun (Except.ok 0) (realGen (fun _ => 0)) ["2d0"]).out.length
      ≠ (["2d0"].filterMap (fun a => (RollCommand.fromStr a).toOption)).length :=
  ⟨rfl, rfl, rfl, by decide⟩

/-- Claim C7 (amended): for every argument list, unparseable tokens are
silently skipped without aborting the run or producing any diagnostic —
the `main` pipeline equals the per-command runner over exactly the
successfully parsed tokens, in command-line order. Provided evaluating
the parsed specs does not panic, the program writes to standard output
exactly one formatted line per successfully parsed token, in the order
the tokens appeared, and exits with status `0`; if evaluating any
parsed spec panics (as the real mapping does on a spec with
`count ≥ 1` and `sides = 0`), the run aborts with no roll output and
the abnormal exit status `101`. -/
theorem claim7_pipeline_skips_and_order (f : σ → Nat → Option (Nat × σ))
    (args : List String) (s : σ) :
    mainRollsP f args s
      = runSpecsP f (args.filterMap (fun a => (RollCommand.fromStr a).toOption)) s ∧
    (∀ (rolls : List RollResult) (s' : σ),
        mainRollsP f args s = some (rolls, s') →
          (mainRun (Except.ok s) f args).out = rolls.map RollResult.fmt ∧
          rolls.length
            = (args.filterMap (fun a => (RollCommand.fromStr a).toOption)).length ∧
          (mainRun (Except.ok s) f args).exitCode = 0) ∧
    (mainRollsP f args s = none →
        mainRun (Except.ok s) f args = { out := [], exitCode := 101 }) := by
  refine ⟨mainRollsP_eq_runSpecsP f args s, ?_, ?_⟩
  · intro rolls s' h
    have hspec := (mainRollsP_eq_runSpecsP f args s).symm.trans h
    refine ⟨?_, runSpecsP_length f _ s rolls s' hspec, ?_⟩
    · show (match mainRollsP f args s with
            | some (rolls, _) => { out := rolls.map RollResult.fmt, exitCode := 0 }
            | none => { out := [], exitCode := 101 } : ProcResult).out = _
      rw [h]
    · show (match mainRollsP f args s with
            | some (rolls, _) => { out := rolls.map RollResult.fmt, exitCode := 0 }
            | none => { out := [], exitCode := 101 } : ProcResult).exitCode = _
      rw [h]
  · intro h
    show (match mainRollsP f args s with
          | some (rolls, _) => { out := rolls.map RollResult.fmt, exitCode := 0 }
          | none => { out := [], exitCode := 101 } : ProcResult) = _
    rw [h]

/-- Witness for C7 at the arguments `["2d6", "abc"]` with the real
mapping over a zero entropy stream: `"abc"` is skipped, `"2d6"` rolls
`[1, 1]`, and exactly one line is printed. -/
theorem claim7_pipeline_witness :
    mainRollsP (realGen (fun _ => 0)) ["2d6", "abc"] 0
      = some ([RollResult.mk [1, 1]], 2) ∧
    ((mainRun (Except.ok 0) (realGen (fun _ => 0)) ["2d6", "abc"]).out
        = [RollResult.mk [1, 1]].map RollResult.fmt ∧
     [RollResult.mk [1, 1]].length
        = (["2d6", "abc"].filterMap
            (fun a => (RollCommand.fromStr a).toOption)).length ∧
     (mainRun (Except.ok 0) (realGen (fun _ => 0)) ["2d6", "abc"]).exitCode = 0) :=
  ⟨rfl,
   (claim7_pipeline_skips_and_order (realGen (fun _ => 0)) ["2d6", "abc"] 0).2.1
     [RollResult.mk [1, 1]] 2 rfl⟩

/-- Claim C8: parsing is a pure function of its input string — parsing
equal tokens yields equal results (the same `RollSpec` on success and
the same failure on failure); there is no state for it to read or
write. -/
theorem claim8_parse_pure (s t : String) (hst : s = t) :
    RollCommand.fromStr s = RollCommand.fromStr t ∧
    ∀ r₁ r₂ : RollCommand,
      RollCommand.fromStr s = Except.ok r₁ →
      RollCommand.fromStr t = Except.ok r₂ → r₁ = r₂ := by
  subst hst
  refine ⟨rfl, ?_⟩
  intro r₁ r₂ h₁ h₂
  rw [h₁] at h₂
  exact Except.ok.inj h₂

/-- Witness for C8 at the token `"2d6"`. -/
theorem claim8_parse_pure_witness :
    RollCommand.fromStr "2d6" = RollCommand.fromStr "2d6" ∧
    RollCommand.new 2 6 = RollCommand.new 2 6 :=
  ⟨(claim8_parse_pure "2d6" "2d6" rfl).1,
   (claim8_parse_pure "2d6" "2d6" rfl).2 (RollCommand.new 2 6)
     (RollCommand.new 2 6) rfl rfl⟩

/-- Claim C9: the parser accepts `"2d0"` as `RollSpec{2, 0}`, and every
spec with `count ≥ 1` and `sides = 0` panics when evaluated through the
real randomness mapping `|max| rng.gen_range(0, max) + 1`, because the
first die draws from the empty range `[0, 0)`; the real execution path
is not total over the specs the parser can produce. -/
theorem claim9_zero_sides_panics :
    RollCommand.fromStr "2d0" = Except.ok (RollCommand.new 2 0) ∧
    ∀ (cmd : RollCommand) (entropy : Nat → Nat),
      1 ≤ cmd.count → cmd.range = 0 → cmd.resultReal entropy = none := by
  refine ⟨rfl, ?_⟩
  intro cmd entropy hcount hrange
  unfold RollCommand.resultReal
  match hc : cmd.count with
  | 0 => omega
  | k + 1 =>
    rw [hrange]
    show (runRollsReal entropy 0 (k + 1) 0).map RollResult.mk = none
    simp [runRollsReal, genRange]

/-- Witness for C9 at the spec `RollSpec{2, 0}` with zero entropy. -/
theorem claim9_zero_sides_panics_witness :
    1 ≤ (RollCommand.new 2 0).count ∧ (RollCommand.new 2 0).range = 0 ∧
    (RollCommand.new 2 0).resultReal (fun _ => 0) = none :=
  ⟨by decide, rfl,
   claim9_zero_sides_panics.2 (RollCommand.new 2 0) (fun _ => 0) (by decide) rfl⟩

/-- Claim C10: `total()` is the sum of the elements in `u32` arithmetic,
i.e. the mathematical sum modulo `2 ^ 32` (release-mode wrapping
semantics); a result whose true sum reaches `2 ^ 32` wraps, e.g.
`[4294967295, 1]` totals `0`. -/
theorem claim10_total_mod_u32 (r : RollResult) :
    r.total = r.values.sum % 4294967296 ∧
    (RollResult.mk [4294967295, 1]).total = 0 := by
  constructor
  · show r.values.foldl u32add 0 = _
    have h := foldl_u32add r.values 0
    rw [Nat.zero_mod] at h
    rw [h]
    simp
  · rfl
